import Mathlib

/-!
# Verification of the mcp-ai-agent composition layer

Shallow embedding of the configuration-routing / tool-composition layer of
the `mcp-ai-agent` TypeScript library (`src/AIAgent.ts`, `src/utils.ts`,
`src/utils/textUtils.ts`).  JavaScript objects used as string-keyed records
are embedded as insertion-ordered association lists (`List (String × α)`),
JavaScript's single-threaded await interleaving is linearized in entry
order, and the external collaborators (the model-invocation library, the
MCP client library, the process environment) are supplied as oracles in an
`Env` record.  All definitions are executable.
-/

namespace McpAiAgent

/-! ## Record helpers (JavaScript object semantics)

`obj[k] = v` keeps the position of an existing key and overwrites its
value, otherwise appends; `{...a, ...b}` folds the entries of `b` over `a`
the same way. -/

/-- JavaScript property assignment `m[k] = v` on a string-keyed object,
embedded on an insertion-ordered association list. -/
def setEntry {α : Type} (m : List (String × α)) (k : String) (v : α) :
    List (String × α) :=
  if m.any (fun kv => kv.1 = k) then
    m.map (fun kv => if kv.1 = k then (k, v) else kv)
  else
    m ++ [(k, v)]

/-- JavaScript property read `m[k]`, `none` standing for `undefined`. -/
def lookupEntry {α : Type} (m : List (String × α)) (k : String) : Option α :=
  (m.find? (fun kv => kv.1 = k)).map (fun kv => kv.2)

/-- JavaScript object spread `{...a, ...b}`: entries of `b` overwrite or
extend the entries of `a`. -/
def mergeRecord {α : Type} (a b : List (String × α)) : List (String × α) :=
  b.foldl (fun acc kv => setEntry acc kv.1 kv.2) a

/-! ## Usage accounting (`AIAgent.generateObject`, src/AIAgent.ts:361-383) -/

/-- Token usage record of the model-invocation library:
`{promptTokens, completionTokens, totalTokens}`. -/
structure Usage where
  promptTokens : Nat
  completionTokens : Nat
  totalTokens : Nat
deriving DecidableEq, Repr

/-- Embeds the usage bookkeeping at the end of `AIAgent.generateObject`
(src/AIAgent.ts:367-383).  Input: the usage of the first (text-generation)
sub-call and the usage the second (structured-extraction) sub-call
originally reported.  Output `.1`: the usage carried by the returned
`objectGenerationResult`, after the in-place `response.usage.x += ...`
increments of lines 367-369.  Output `.2`: the top-level `usage` field of
the returned record, computed at lines 375-381 as
`textResponse.usage.x + response.usage.x` — where `response.usage` has
already been incremented in place. -/
def generateObjectUsage (textUsage objUsage : Usage) : Usage × Usage :=
  let responseUsage : Usage :=
    { completionTokens := objUsage.completionTokens + textUsage.completionTokens
      promptTokens := objUsage.promptTokens + textUsage.promptTokens
      totalTokens := objUsage.totalTokens + textUsage.totalTokens }
  let topUsage : Usage :=
    { promptTokens := textUsage.promptTokens + responseUsage.promptTokens
      completionTokens := textUsage.completionTokens + responseUsage.completionTokens
      totalTokens := textUsage.totalTokens + responseUsage.totalTokens }
  (responseUsage, topUsage)

/-! ## Tool mappings and `filterTools` (src/utils.ts:3-10) -/

/-- A tool descriptor as far as this layer inspects it: the layer itself
only ever builds and passes tool values around, so the description field
is what identifies one here. -/
structure ToolEntry where
  description : String
deriving DecidableEq, Repr

/-- The `TOOLS` mapping (tool name → descriptor) as an insertion-ordered
association list. -/
def ToolMap : Type := List (String × ToolEntry)

/-- Embeds `filterTools` (src/utils.ts:3-10): `Object.fromEntries` over
`Object.entries(tools).filter(([_, tool]) => filter(tool))`, where the
`filter` parameter defaults to `() => true` when the caller passes
`undefined`.  The source builds a fresh object and never writes to its
input, which the pure embedding reflects. -/
def filterTools (tools : List (String × ToolEntry))
    (filter : Option (ToolEntry → Bool)) : List (String × ToolEntry) :=
  let f := filter.getD (fun _ => true)
  tools.filter (fun kv => f kv.2)

/-! ## `toSnakeCase` (src/utils/textUtils.ts:1-4) and agent tool naming
(`AIAgent.initializeAgentConfig`, src/AIAgent.ts:141-158) -/

/-- ASCII fragment of JavaScript `String.prototype.toLowerCase`, applied
character-wise (agent names in this library are ASCII). -/
def toLowerCh (c : Char) : Char :=
  match c with
  | 'A' => 'a' | 'B' => 'b' | 'C' => 'c' | 'D' => 'd' | 'E' => 'e'
  | 'F' => 'f' | 'G' => 'g' | 'H' => 'h' | 'I' => 'i' | 'J' => 'j'
  | 'K' => 'k' | 'L' => 'l' | 'M' => 'm' | 'N' => 'n' | 'O' => 'o'
  | 'P' => 'p' | 'Q' => 'q' | 'R' => 'r' | 'S' => 's' | 'T' => 't'
  | 'U' => 'u' | 'V' => 'v' | 'W' => 'w' | 'X' => 'x' | 'Y' => 'y'
  | 'Z' => 'z'
  | c => c

/-- JavaScript `str.replace(" ", "_")` with a *string* pattern replaces
only the first occurrence; embedded on the character list. -/
def replaceFirstSpace : List Char → List Char
  | [] => []
  | c :: cs => if c = ' ' then '_' :: cs else c :: replaceFirstSpace cs

/-- `str.toLowerCase().replace(" ", "_")` on the character list. -/
def snakeChars (l : List Char) : List Char :=
  replaceFirstSpace (l.map toLowerCh)

/-- Embeds `toSnakeCase` (src/utils/textUtils.ts:1-4).  `rand` is the
value `Math.random().toString(36).substring(2, 15)` would have produced
on this call; it is returned exactly when the argument is `undefined` or
the empty string (JavaScript falsiness of `str`). -/
def toSnakeCase (rand : String) : Option String → String
  | none => rand
  | some s => if s = "" then rand else ⟨snakeChars s.data⟩

/-- JavaScript truthiness of an optional string (`undefined` and `""` are
falsy). -/
def truthyStr : Option String → Bool
  | none => false
  | some s => s ≠ ""

/-- The nested-agent registry name computed by
`AIAgent.initializeAgentConfig` (src/AIAgent.ts:142-144):
`config.name ? toSnakeCase(config.name) : toSnakeCase(config.agent.getInfo?.()?.name)`.
`override` is `config.name`, `agentName` the nested agent's declared name,
`rand` the random fallback of the one `toSnakeCase` call that runs. -/
def agentRegistryName (rand : String) (override agentName : Option String) :
    String :=
  if truthyStr override then toSnakeCase rand override
  else toSnakeCase rand agentName

/-- The tool key under which the agent-as-tool adapter is registered
(src/AIAgent.ts:154): the template literal
`agent_${toSnakeCase(name)}` applied to the registry name, so
`toSnakeCase` runs a second time on the already-normalized name.  `rand1`
and `rand2` are the fallbacks of the two `toSnakeCase` calls. -/
def agentToolKey (rand1 rand2 : String) (override agentName : Option String) :
    String :=
  "agent_" ++ toSnakeCase rand2 (some (agentRegistryName rand1 override agentName))

/-- Number of space characters in a character list. -/
def spaceCount : List Char → Nat
  | [] => 0
  | c :: cs => (if c = ' ' then 1 else 0) + spaceCount cs

/-! ## Server descriptors and the auto-resolved initializer
(`AIAgent.initializeAutoServer`, src/AIAgent.ts:100-139)

TypeScript types `StdioConfig` and `SSEConfig` (src/types.ts) are plain
shapes discriminated at runtime by `"type" in serverConfig`; a single
record with a `hasType`/`typeVal` pair embeds that duck typing. -/

/-- A direct server descriptor (`StdioConfig` or `SSEConfig` from
src/types.ts), as the duck-typed JavaScript object the router inspects:
`hasType` is `"type" in serverConfig`, `typeVal` its value when present.
`env = none` is an absent `env` property. -/
structure ServerDesc where
  hasType : Bool := false
  typeVal : String := ""
  command : String := ""
  args : List String := []
  env : Option (List (String × String)) := none
  cwd : Option String := none
  url : String := ""
  headers : List (String × String) := []
deriving DecidableEq, Repr

/-- One entry of `MCPAutoConfig.parameters`
(src/types.ts: `Record<string, { description; required }>`). -/
structure ParamDecl where
  description : String := ""
  required : Bool
deriving DecidableEq, Repr

/-- `MCPAutoConfig.mcpConfig : MCPServerConfig | MCPServerConfig[]`. -/
inductive MCPConfigField where
  | single (d : ServerDesc)
  | listOf (ds : List ServerDesc)
deriving DecidableEq, Repr

/-- The fields of `MCPAutoConfig` (src/types.ts:393-431) that
`initializeAutoServer` reads. -/
structure MCPAutoConfig where
  name : String
  parameters : List (String × ParamDecl)
  mcpConfig : MCPConfigField
deriving DecidableEq, Repr

/-- `process.env[key]` truthiness as tested by `!process.env[key]`
(src/AIAgent.ts:105) and `if (process.env[key])` (line 117): an unset
variable and the empty string are both falsy. -/
def isSet (env : String → Option String) (k : String) : Bool :=
  match env k with
  | none => false
  | some s => s ≠ ""

/-- The names of required parameters missing from the environment, in
declaration order (src/AIAgent.ts:104-106 followed by the `.map(([key]) =>
key)` of line 110). -/
def missingEnvVars (env : String → Option String)
    (params : List (String × ParamDecl)) : List String :=
  (params.filter (fun kv => kv.2.required && !(isSet env kv.1))).map
    (fun kv => kv.1)

/-- `Array.prototype.join(", ")` (src/AIAgent.ts:111). -/
def joinComma : List String → String
  | [] => ""
  | [s] => s
  | s :: rest => s ++ ", " ++ joinComma rest

/-- The injected-environment map built by the `reduce` of
src/AIAgent.ts:115-121: every declared parameter that is truthy in the
environment, with its value, accumulated by object assignment in
declaration order. -/
def injectedEnv (env : String → Option String)
    (params : List (String × ParamDecl)) : List (String × String) :=
  params.foldl
    (fun acc kv =>
      if isSet env kv.1 then setEntry acc kv.1 ((env kv.1).getD "") else acc)
    []

/-- `Array.isArray(autoConfig.mcpConfig) ? autoConfig.mcpConfig[0] :
autoConfig.mcpConfig` (src/AIAgent.ts:123-125); `none` is the `undefined`
produced by indexing an empty array. -/
def selectDesc : MCPConfigField → Option ServerDesc
  | .single d => some d
  | .listOf ds => ds.head?

/-- Outcome of `AIAgent.initializeAutoServer` before any connection side
effect: `error` is the `throw new Error(...)` of lines 108-112 (the
spec's ConfigurationError), raised before any initializer is invoked;
`stdioInit`/`sseInit` record delegation to `initializeSdtioServer` /
`initializeSSEServer` with the exact descriptor passed; `noop` is the
fall-through of the `switch` for an unrecognized type tag; `typeErr` is
the TypeError JavaScript raises when `mcpConfig` is an empty array and
line 127 reads `"type" in undefined`. -/
inductive AutoResult where
  | error (msg : String)
  | stdioInit (name : String) (desc : ServerDesc)
  | sseInit (name : String) (desc : ServerDesc)
  | noop
  | typeErr
deriving DecidableEq, Repr

/-- Embeds `AIAgent.initializeAutoServer` (src/AIAgent.ts:100-139) as a
pure decision function over the process environment: validate required
parameters, collect the injected environment, select the first underlying
descriptor, and dispatch on `"type" in serverConfig ? serverConfig.type :
"stdio"`.  Only the stdio branch spreads the injected environment into
the descriptor (`{...serverConfig, env: envVars}`, lines 130-133); the
sse branch passes the selected descriptor unchanged (line 136). -/
def initializeAutoServer (env : String → Option String) (name : String)
    (cfg : MCPAutoConfig) : AutoResult :=
  let missing := missingEnvVars env cfg.parameters
  if missing ≠ [] then
    .error ("Missing environment variables: " ++ joinComma missing)
  else
    match selectDesc cfg.mcpConfig with
    | none => .typeErr
    | some d =>
      let tag := if d.hasType then d.typeVal else "stdio"
      if tag = "stdio" then
        .stdioInit name { d with env := some (injectedEnv env cfg.parameters) }
      else if tag = "sse" then
        .sseInit name d
      else
        .noop

/-! ## The Agent state machine (`AIAgent`, src/AIAgent.ts:34-418)

The mutable fields of an `AIAgent` instance become an explicit
`AgentState`; the external collaborators become an `Env` of oracles.  The
`Promise.all` fan-outs of `initialize` and `close` are linearized in
entry order — JavaScript's single-threaded interleaving only permutes
independent registry writes, and no claim depends on the order.  Each
side effect is recorded as an event so that theorems can state which
connections were opened or closed and when the model invocation ran. -/

/-- A client handle returned by `experimental_createMCPClient`; opaque to
this layer, so a bare identifier. -/
abbrev Client : Type := Nat

/-- A nested agent reference (`AIAgentInterface`); opaque to the parent
beyond the `getInfo` data the oracle provides. -/
abbrev AgentRef : Type := Nat

/-- One entry of `MCPConfig.mcpServers`: either a direct descriptor
(stdio or sse by its duck-typed tag) or a nested auto descriptor. -/
inductive ServerEntry where
  | plain (d : ServerDesc)
  | auto (a : MCPAutoConfig)
deriving DecidableEq, Repr

/-- A `WorkflowConfig` entry (src/types.ts:556-560) as the router
discriminates it (src/AIAgent.ts:227-253): `type === "auto"`,
`type === "agent"`, `type === "tool"`, or the untagged `MCPConfig`
carrying an `mcpServers` map. -/
inductive WorkflowConfig where
  | autoCfg (cfg : MCPAutoConfig)
  | agentCfg (overrideName overrideDescr : Option String) (agent : AgentRef)
  | toolCfg (name : String) (t : ToolEntry)
  | mcp (servers : List (String × ServerEntry))
deriving DecidableEq, Repr

/-- The mutable instance state of one `AIAgent`
(src/AIAgent.ts:35-47). -/
structure AgentState where
  clients : List (String × Client) := []
  tools : List (String × ToolEntry) := []
  agents : List (String × AgentRef) := []
  initialized : Bool := false
  config : List WorkflowConfig := []
  name : String := ""
  system : Option String := none
  model : String := ""
deriving DecidableEq, Repr

/-- The request `generateText` receives from `generateResponse`
(src/AIAgent.ts:299-305), restricted to the fields this layer computes. -/
structure GenRequest where
  tools : List (String × ToolEntry)
  system : Option String
  modelId : String
  maxSteps : Nat
  prompt : String
deriving DecidableEq, Repr

/-- Observable side effects: a client connection opened
(`createMCPClient`), a client or nested agent closed, or the
model-invocation call (`generateText`) issued. -/
inductive Evt where
  | connect (name : String) (desc : ServerDesc)
  | closeClient (name : String) (c : Client)
  | closeAgent (name : String) (a : AgentRef)
  | llmCall (req : GenRequest)
deriving DecidableEq, Repr

/-- The result of the external `generateText` call, restricted to the
fields `generateResponse` post-processes. -/
structure RawResult where
  text : String
  finishReason : String
  usage : Usage
deriving DecidableEq, Repr

/-- Oracles for everything outside this layer: `connect` is
`createMCPClient` (both transports), `clientTools` is `client.tools()`,
`llm` is `generateText`, `procEnv` is `process.env`, `agentName` /
`agentDescr` are the nested agent's `getInfo?.()?` fields, and `rand` /
`rand2` are the values `Math.random()`-based fallbacks would produce in
the two `toSnakeCase` call sites of `initializeAgentConfig`. -/
structure Env where
  connect : String → ServerDesc → Client
  clientTools : Client → List (String × ToolEntry)
  llm : GenRequest → RawResult
  procEnv : String → Option String
  agentName : AgentRef → Option String
  agentDescr : AgentRef → Option String
  rand : String := "k3j2h4g5f6d7s"
  rand2 : String := "q9w8e7r6t5y4u"

/-- `initializeSdtioServer` (src/AIAgent.ts:82-90): open a stdio-transport
client and assign it into the client registry under `name`. -/
def initializeSdtioServerSt (env : Env) (st : AgentState) (name : String)
    (d : ServerDesc) : AgentState × List Evt :=
  ({ st with clients := setEntry st.clients name (env.connect name d) },
   [Evt.connect name d])

/-- `initializeSSEServer` (src/AIAgent.ts:92-98): open an sse-transport
client and assign it into the client registry under `name`. -/
def initializeSSEServerSt (env : Env) (st : AgentState) (name : String)
    (d : ServerDesc) : AgentState × List Evt :=
  ({ st with clients := setEntry st.clients name (env.connect name d) },
   [Evt.connect name d])

/-- `initializeAutoServer` as a state transformer: the pure decision
of `initializeAutoServer` applied, then the chosen delegate run.
`AutoResult.error` and the `typeErr` crash become `Except.error`
(the thrown exception). -/
def initializeAutoServerSt (env : Env) (st : AgentState) (name : String)
    (cfg : MCPAutoConfig) : Except String (AgentState × List Evt) :=
  match initializeAutoServer env.procEnv name cfg with
  | .error m => .error m
  | .stdioInit n d => .ok (initializeSdtioServerSt env st n d)
  | .sseInit n d => .ok (initializeSSEServerSt env st n d)
  | .noop => .ok (st, [])
  | .typeErr => .error "TypeError: serverConfig is undefined"

/-- JavaScript `a || b` on optional strings: `a` when truthy, else `b`. -/
def orTruthy (a b : Option String) : Option String :=
  match a with
  | some s => if s ≠ "" then some s else b
  | none => b

/-- The three-way fallback `a || b || c` ending in a plain string. -/
def firstTruthy (a b : Option String) (c : String) : String :=
  if truthyStr a then a.getD "" else if truthyStr b then b.getD "" else c

/-- The description of the agent-as-tool entry (src/AIAgent.ts:155-158):
`config.description || config.agent.getInfo?.()?.description ||
`Call the ${config.name} agent for specialized tasks``; an absent
`config.name` renders as the string `"undefined"` in the template
literal. -/
def agentToolDescr (env : Env) (overrideName overrideDescr : Option String)
    (a : AgentRef) : String :=
  firstTruthy overrideDescr (env.agentDescr a)
    ("Call the " ++ (match overrideName with | some s => s | none => "undefined")
      ++ " agent for specialized tasks")

/-- `initializeAgentConfig` (src/AIAgent.ts:141-192): resolve the registry
name, record the nested agent under it, and register the adapter tool
under ``agent_${toSnakeCase(name)}``.  The adapter's `execute` closure
delegates to the nested agent at call time and is outside this state
model. -/
def initializeAgentConfigSt (env : Env) (st : AgentState)
    (overrideName overrideDescr : Option String) (a : AgentRef) : AgentState :=
  let name := agentRegistryName env.rand overrideName (env.agentName a)
  { st with
    agents := setEntry st.agents name a
    tools := setEntry st.tools ("agent_" ++ toSnakeCase env.rand2 (some name))
      { description := agentToolDescr env overrideName overrideDescr a } }

/-- One entry of `initializeMcpConfig`'s fan-out (src/AIAgent.ts:197-217):
dispatch on `"type" in serverConfig ? serverConfig.type : "stdio"`; an
unrecognized tag throws `Unsupported server type for server ${name}`. -/
def initOneServer (env : Env) (st : AgentState) (name : String) :
    ServerEntry → Except String (AgentState × List Evt)
  | .plain d =>
    let tag := if d.hasType then d.typeVal else "stdio"
    if tag = "stdio" then .ok (initializeSdtioServerSt env st name d)
    else if tag = "sse" then .ok (initializeSSEServerSt env st name d)
    else .error ("Unsupported server type for server " ++ name)
  | .auto a => initializeAutoServerSt env st name a

/-- `initializeMcpConfig`'s `Promise.all` over `mcpServers`
(src/AIAgent.ts:196-219), linearized in entry order.  The source's
`catch` block closes already-open clients and rethrows; the embedding
propagates the error (the post-failure registry state is unobservable
through the claims settled here). -/
def initServers (env : Env) : AgentState → List (String × ServerEntry) →
    Except String (AgentState × List Evt)
  | st, [] => .ok (st, [])
  | st, (n, se) :: rest =>
    match initOneServer env st n se with
    | .error e => .error e
    | .ok (st1, e1) =>
      match initServers env st1 rest with
      | .error e => .error e
      | .ok (st2, e2) => .ok (st2, e1 ++ e2)

/-- `initializeConfigRouter` (src/AIAgent.ts:227-253): dispatch one
configuration entry by its discriminator. -/
def initializeConfigRouterSt (env : Env) (st : AgentState) :
    WorkflowConfig → Except String (AgentState × List Evt)
  | .autoCfg a => initializeAutoServerSt env st a.name a
  | .agentCfg ov ovd ag => .ok (initializeAgentConfigSt env st ov ovd ag, [])
  | .toolCfg n t =>
    .ok ({ st with tools := setEntry st.tools (toSnakeCase env.rand (some n)) t },
      [])
  | .mcp servers => initServers env st servers

/-- The `Promise.all(this.config.map(...))` of `initialize`
(src/AIAgent.ts:256-258), linearized in list order. -/
def routeAll (env : Env) : AgentState → List WorkflowConfig →
    Except String (AgentState × List Evt)
  | st, [] => .ok (st, [])
  | st, c :: cs =>
    match initializeConfigRouterSt env st c with
    | .error e => .error e
    | .ok (st1, e1) =>
      match routeAll env st1 cs with
      | .error e => .error e
      | .ok (st2, e2) => .ok (st2, e1 ++ e2)

/-- `AIAgent.initialize` (src/AIAgent.ts:255-268): route every
configuration entry, then merge each client's discovered tools into the
tool registry (`this.tools = { ...this.tools, ...serverTools }` per
client, in registry order), then set the `initialized` flag.  The flag is
never read here: an explicit second call re-runs everything. -/
def initAgent (env : Env) (st : AgentState) :
    Except String (AgentState × List Evt) :=
  match routeAll env st st.config with
  | .error e => .error e
  | .ok (st1, evts) =>
    .ok ({ st1 with
      tools := st1.clients.foldl
        (fun (t : List (String × ToolEntry)) (kv : String × Client) =>
          mergeRecord t (env.clientTools kv.2)) st1.tools
      initialized := true }, evts)

/-- Modelled from the spec: `src/const.ts` (exporting `DEFAULT_MAX_STEPS`)
is not among the provided sources; spec §4.6 says only that the step cap
defaults to "a fixed default".  No settled claim depends on the value. -/
def DEFAULT_MAX_STEPS : Nat := 20

/-- Modelled from the spec: `src/const.ts` (exporting `DEFAULT_MODEL`) is
not among the provided sources; spec §9 calls it a hard-coded fallback
model reference.  No settled claim depends on the value. -/
def DEFAULT_MODEL : String := "default-model"

/-- The fixed explanatory sentence substituted for an empty text after
tool calls (src/AIAgent.ts:310-311). -/
def emptyToolCallsText : String :=
  "The AI completed with tool calls, but no final text was generated. Check if the requested resources were found."

/-- The caller-facing arguments of `generateResponse`
(`GenerateTextArgs`), restricted to the fields this layer inspects. -/
structure GenArgs where
  tools : List (String × ToolEntry) := []
  filterMCPTools : Option (ToolEntry → Bool) := none
  model : Option String := none
  system : Option String := none
  maxSteps : Option Nat := none
  prompt : String := ""

/-- The request assembled by `generateResponse` (src/AIAgent.ts:277-305):
filtered discovered tools merged under the caller's ad hoc tools
(`{ ...filteredTools, ...args.tools }`), `args.model || this.model`,
`args.system || this.system`, `args.maxSteps || DEFAULT_MAX_STEPS`. -/
def buildReq (st : AgentState) (args : GenArgs) : GenRequest :=
  { tools := mergeRecord (filterTools st.tools args.filterMCPTools) args.tools
    system := orTruthy args.system st.system
    modelId := args.model.getD st.model
    maxSteps := match args.maxSteps with
      | some n => if n ≠ 0 then n else DEFAULT_MAX_STEPS
      | none => DEFAULT_MAX_STEPS
    prompt := args.prompt }

/-- The post-processing of src/AIAgent.ts:307-314: copy the response and,
when the text is empty and the finish reason is `"tool-calls"`,
substitute the fixed explanatory sentence; every other field is kept. -/
def postProcess (raw : RawResult) : RawResult :=
  if raw.text = "" ∧ raw.finishReason = "tool-calls" then
    { raw with text := emptyToolCallsText }
  else raw

/-- `AIAgent.generateResponse` (src/AIAgent.ts:270-323): lazily
initialize when the `initialized` flag is unset, assemble the request,
issue the model-invocation call, and post-process.  The returned state is
the instance state after the call (`this`); the event list records the
connections opened by a lazy initialization followed by the model
invocation. -/
def generateResponse (env : Env) (st : AgentState) (args : GenArgs) :
    Except String (AgentState × RawResult × List Evt) :=
  match
    (if st.initialized then Except.ok (st, ([] : List Evt))
     else initAgent env st) with
  | .error e => .error e
  | .ok (st1, initEvts) =>
    .ok (st1, postProcess (env.llm (buildReq st1 args)),
      initEvts ++ [Evt.llmCall (buildReq st1 args)])

/-- `AIAgent.close` (src/AIAgent.ts:386-399): close every client and
cascade close into every nested agent (both recorded as events, in
registry order), then clear the two registries.  The tool registry and
the `initialized` flag are left untouched. -/
def close (st : AgentState) : AgentState × List Evt :=
  ({ st with clients := [], agents := [] },
   st.clients.map (fun kv => Evt.closeClient kv.1 kv.2) ++
     st.agents.map (fun kv => Evt.closeAgent kv.1 kv.2))

/-! ## Concrete fixtures used by witnesses and counterexamples -/

/-- An oracle environment whose model call succeeds with plain text. -/
def env0 : Env where
  connect := fun _ _ => 0
  clientTools := fun _ => []
  llm := fun _ => { text := "hello", finishReason := "stop", usage := ⟨1, 1, 2⟩ }
  procEnv := fun _ => none
  agentName := fun _ => none
  agentDescr := fun _ => none

/-- An oracle environment whose model call finishes on tool calls with an
empty text. -/
def envToolCalls : Env :=
  { env0 with
    llm := fun _ => { text := "", finishReason := "tool-calls", usage := ⟨0, 0, 0⟩ } }

/-- A sample tool descriptor. -/
def toolA : ToolEntry := { description := "a tool" }

/-- Default `generateResponse` arguments. -/
def args0 : GenArgs := { prompt := "hi" }

/-- An initialized agent holding one client, one discovered tool and one
nested agent. -/
def stOpen : AgentState :=
  { clients := [("srv", 7)]
    tools := [("t1", toolA)]
    agents := [("helper", 3)]
    initialized := true
    config := []
    name := "parent"
    system := none
    model := "m0" }

/-- A process environment where only `C` is set. -/
def envOnlyC : String → Option String :=
  fun k => if k = "C" then some "v" else none

/-- A process environment where only `K` is set. -/
def envOnlyK : String → Option String :=
  fun k => if k = "K" then some "v" else none

/-- An auto descriptor with two required parameters (`A`, `B`) and an
optional one (`C`). -/
def cfgMissing : MCPAutoConfig :=
  { name := "a"
    parameters := [("A", { required := true }), ("B", { required := true }),
      ("C", { required := false })]
    mcpConfig := .single {} }

/-- An sse-tagged direct descriptor with no `env` property. -/
def descSse : ServerDesc := { hasType := true, typeVal := "sse", url := "http://x" }

/-- An auto descriptor whose underlying descriptor is sse-tagged and
whose one (optional) parameter is present in `envOnlyK`. -/
def cfgSse : MCPAutoConfig :=
  { name := "s"
    parameters := [("K", { required := false })]
    mcpConfig := .single descSse }

/-- An untagged (hence stdio) direct descriptor. -/
def descStdio : ServerDesc := { command := "run" }

/-- An auto descriptor with one required parameter present in `envOnlyK`
and a list of two underlying descriptors. -/
def cfgStdioList : MCPAutoConfig :=
  { name := "s"
    parameters := [("K", { required := true }), ("Z", { required := false })]
    mcpConfig := .listOf [descStdio, { command := "other" }] }

/-- A second untagged stdio descriptor. -/
def descStdio2 : ServerDesc := { command := "run2" }

/-- Two stdio servers with distinct names. -/
def serversW : List (String × ServerDesc) := [("s1", descStdio), ("s2", descStdio2)]

/-- An uninitialized agent configured with a single stdio server. -/
def stFresh : AgentState :=
  { config := [WorkflowConfig.mcp [("s", ServerEntry.plain descStdio)]]
    name := "fresh"
    model := "m0" }

/-- The state `stFresh` reaches after its lazy initialization under
`env0`: the server connected (client handle `0`), flag set. -/
def stFreshAfter : AgentState :=
  { stFresh with clients := [("s", 0)], initialized := true }

/-- An *already initialized* agent holding a stale client under `s1` and
configured with the two servers of `serversW`. -/
def stTwo : AgentState :=
  { clients := [("s1", 99)]
    initialized := true
    config := [WorkflowConfig.mcp [("s1", ServerEntry.plain descStdio),
      ("s2", ServerEntry.plain descStdio2)]]
    name := "two"
    model := "m" }

/-! # Theorems -/

/-- Every member of a list occurs inside its comma join. -/
theorem joinComma_names_member (names : List String) (k : String)
    (h : k ∈ names) : ∃ p q, joinComma names = p ++ (k ++ q) := by
  induction names with
  | nil => cases h
  | cons s rest ih =>
    rcases List.mem_cons.mp h with rfl | hmem
    · cases rest with
      | nil => exact ⟨"", "", by simp [joinComma]⟩
      | cons r rs =>
        exact ⟨"", ", " ++ joinComma (r :: rs),
          by simp [joinComma, String.append_assoc]⟩
    · obtain ⟨p, q, hpq⟩ := ih hmem
      cases rest with
      | nil => cases hmem
      | cons r rs =>
        refine ⟨s ++ ", " ++ p, q, ?_⟩
        show s ++ ", " ++ joinComma (r :: rs) = s ++ ", " ++ p ++ (k ++ q)
        rw [hpq, String.append_assoc, String.append_assoc,
          String.append_assoc]

/-- C1: the claim states that `generateObject`'s returned top-level usage
is the element-wise sum of the two sub-call usages.  On the code this
fails: `response.usage` is incremented in place by the text sub-call's
usage (src/AIAgent.ts:367-369) *before* the top-level usage re-adds the
text usage (lines 375-381), so the text sub-call is counted twice.  At
text usage (1, 2, 3) and object usage (10, 20, 30) the code returns
(12, 24, 36), not the claimed sum (11, 22, 33). -/
theorem generateObject_topUsage_double_counts_text :
    (generateObjectUsage ⟨1, 2, 3⟩ ⟨10, 20, 30⟩).2 = ⟨12, 24, 36⟩ ∧
      (generateObjectUsage ⟨1, 2, 3⟩ ⟨10, 20, 30⟩).2 ≠ ⟨11, 22, 33⟩ := by
  decide

/-- C9: the `objectGenerationResult` returned by `generateObject` carries
a usage record that was mutated in place before return: each of its three
token fields is the corresponding field of the second (structured
extraction) sub-call's raw usage incremented by the corresponding field
of the first (text-generation) sub-call's usage, so whenever the text
sub-call's usage is nonzero it is no longer the raw second sub-call
usage. -/
theorem objectGenerationResult_usage_incremented (t o : Usage) :
    (generateObjectUsage t o).1 =
        { promptTokens := o.promptTokens + t.promptTokens
          completionTokens := o.completionTokens + t.completionTokens
          totalTokens := o.totalTokens + t.totalTokens } ∧
      (t ≠ ⟨0, 0, 0⟩ → (generateObjectUsage t o).1 ≠ o) := by
  constructor
  · rfl
  · intro ht h
    apply ht
    cases t with
    | mk tp tc tt =>
      cases o with
      | mk op oc ot =>
        simp only [generateObjectUsage, Usage.mk.injEq] at h ⊢
        omega

/-- Witness for C9 at concrete usages: the text usage (1, 2, 3) is
nonzero and the mutated `objectGenerationResult` usage is
(11, 22, 33) ≠ (10, 20, 30). -/
theorem objectGenerationResult_usage_incremented_witness :
    (generateObjectUsage ⟨1, 2, 3⟩ ⟨10, 20, 30⟩).1 =
        { promptTokens := 11, completionTokens := 22, totalTokens := 33 } ∧
      (generateObjectUsage ⟨1, 2, 3⟩ ⟨10, 20, 30⟩).1 ≠ ⟨10, 20, 30⟩ :=
  ⟨(objectGenerationResult_usage_incremented ⟨1, 2, 3⟩ ⟨10, 20, 30⟩).1,
   (objectGenerationResult_usage_incremented ⟨1, 2, 3⟩ ⟨10, 20, 30⟩).2
     (by decide)⟩

/-- C4: `filterTools T (some p)` returns exactly the entries of `T`
whose descriptor satisfies `p` (a sub-mapping of `T` containing an entry
iff `T` contains it and it satisfies `p`), and `filterTools T none`
(predicate `undefined`) returns the mapping with exactly `T`'s content.
The source builds its result with `Object.fromEntries` and never writes
to the input object, which the pure embedding reflects: the input is a
value and cannot be mutated. -/
theorem filterTools_exact (T : List (String × ToolEntry))
    (p : ToolEntry → Bool) :
    List.Sublist (filterTools T (some p)) T ∧
      (∀ kv : String × ToolEntry,
        kv ∈ filterTools T (some p) ↔ kv ∈ T ∧ p kv.2 = true) ∧
      filterTools T none = T := by
  refine ⟨?_, ?_, ?_⟩
  · simp only [filterTools, Option.getD_some]
    exact List.filter_sublist T
  · intro kv
    simp [filterTools, List.mem_filter]
  · simp [filterTools]

/-- C5: when at least one required parameter of an auto descriptor is
absent from (not truthy in) the process environment, the auto initializer
throws the configuration error (spec §7's ConfigurationError) built from
*all* missing required parameter names in declaration order, each of
which occurs verbatim in the message; by construction of
`initializeAutoServer` this happens before any descriptor is selected or
any delegate initializer (hence any connection) is reached. -/
theorem autoServer_missing_env_fails (env : String → Option String)
    (name : String) (cfg : MCPAutoConfig)
    (h : missingEnvVars env cfg.parameters ≠ []) :
    initializeAutoServer env name cfg =
        .error ("Missing environment variables: " ++
          joinComma (missingEnvVars env cfg.parameters)) ∧
      ∀ k ∈ missingEnvVars env cfg.parameters,
        ∃ p q, ("Missing environment variables: " ++
          joinComma (missingEnvVars env cfg.parameters)) = p ++ (k ++ q) := by
  constructor
  · simp [initializeAutoServer, h]
  · intro k hk
    obtain ⟨p, q, hpq⟩ := joinComma_names_member _ k hk
    exact ⟨"Missing environment variables: " ++ p, q,
      by rw [hpq, String.append_assoc]⟩

/-- Witness for C5: with only `C` set in the environment, `cfgMissing`
(required `A`, `B`; optional `C`) fails with a message listing both `A`
and `B`; the second missing name `B` occurs in the message, showing the
collection is not first-only. -/
theorem autoServer_missing_env_fails_witness :
    initializeAutoServer envOnlyC "srv" cfgMissing =
        .error "Missing environment variables: A, B" ∧
      ∃ p q, "Missing environment variables: A, B" = p ++ ("B" ++ q) := by
  have h := autoServer_missing_env_fails envOnlyC "srv" cfgMissing (by decide)
  exact ⟨h.1, h.2 "B" (by decide)⟩

/-- `toLowerCh` maps no character to a space, and fixes the space. -/
theorem toLowerCh_eq_space (c : Char) : toLowerCh c = ' ' ↔ c = ' ' := by
  unfold toLowerCh
  split <;> simp_all

/-- `toLowerCh` either fixes its argument or yields a lowercase ASCII
letter. -/
theorem toLowerCh_cases (c : Char) :
    toLowerCh c = c ∨
      toLowerCh c ∈ ['a', 'b', 'c', 'd', 'e', 'f', 'g', 'h', 'i', 'j', 'k',
        'l', 'm', 'n', 'o', 'p', 'q', 'r', 's', 't', 'u', 'v', 'w', 'x',
        'y', 'z'] := by
  unfold toLowerCh
  split <;> first | exact Or.inl rfl | exact Or.inr (by decide)

/-- `toLowerCh` is idempotent. -/
theorem toLowerCh_idem (c : Char) : toLowerCh (toLowerCh c) = toLowerCh c := by
  have hfix : ∀ d ∈ ['a', 'b', 'c', 'd', 'e', 'f', 'g', 'h', 'i', 'j', 'k',
      'l', 'm', 'n', 'o', 'p', 'q', 'r', 's', 't', 'u', 'v', 'w', 'x',
      'y', 'z'], toLowerCh d = d := by decide
  rcases toLowerCh_cases c with h | h
  · rw [h]
    exact h
  · exact hfix _ h

/-- Character-wise lowering preserves the space count. -/
theorem spaceCount_map_toLowerCh (l : List Char) :
    spaceCount (l.map toLowerCh) = spaceCount l := by
  induction l with
  | nil => rfl
  | cons c cs ih => simp [spaceCount, toLowerCh_eq_space, ih]

/-- Replacing the first space removes exactly one space (truncated at
zero). -/
theorem spaceCount_replaceFirstSpace (l : List Char) :
    spaceCount (replaceFirstSpace l) = spaceCount l - 1 := by
  induction l with
  | nil => rfl
  | cons c cs ih =>
    by_cases hc : c = ' '
    · subst hc
      simp [replaceFirstSpace, spaceCount]
    · rw [show replaceFirstSpace (c :: cs) = c :: replaceFirstSpace cs from by
        simp [replaceFirstSpace, hc]]
      simp only [spaceCount, if_neg hc, ih]
      omega

/-- Space count distributes over append. -/
theorem spaceCount_append (a b : List Char) :
    spaceCount (a ++ b) = spaceCount a + spaceCount b := by
  induction a with
  | nil => simp [spaceCount]
  | cons c cs ih =>
    simp [spaceCount, ih]
    omega

/-- Every character of `replaceFirstSpace l` is an underscore or comes
from `l`. -/
theorem mem_replaceFirstSpace (l : List Char) (c : Char)
    (h : c ∈ replaceFirstSpace l) : c = '_' ∨ c ∈ l := by
  induction l with
  | nil => cases h
  | cons d ds ih =>
    by_cases hd : d = ' '
    · subst hd
      rw [show replaceFirstSpace (' ' :: ds) = '_' :: ds from by
        simp [replaceFirstSpace]] at h
      rcases List.mem_cons.mp h with rfl | hmem
      · exact Or.inl rfl
      · exact Or.inr (List.mem_cons_of_mem _ hmem)
    · rw [show replaceFirstSpace (d :: ds) = d :: replaceFirstSpace ds from by
        simp [replaceFirstSpace, hd]] at h
      rcases List.mem_cons.mp h with rfl | hmem
      · exact Or.inr (List.mem_cons_self _ _)
      · rcases ih hmem with h_ | h_
        · exact Or.inl h_
        · exact Or.inr (List.mem_cons_of_mem _ h_)

/-- Every character of a snake-cased list is fixed by `toLowerCh`. -/
theorem snakeChars_lower_fixed (l : List Char) (c : Char)
    (h : c ∈ snakeChars l) : toLowerCh c = c := by
  rcases mem_replaceFirstSpace _ _ h with rfl | hmem
  · rfl
  · obtain ⟨a, _, rfl⟩ := List.mem_map.mp hmem
    exact toLowerCh_idem a

/-- `replaceFirstSpace` preserves length. -/
theorem length_replaceFirstSpace (l : List Char) :
    (replaceFirstSpace l).length = l.length := by
  induction l with
  | nil => rfl
  | cons c cs ih =>
    by_cases hc : c = ' '
    · subst hc; simp [replaceFirstSpace]
    · simp [replaceFirstSpace, hc, ih]

/-- When the selected source name (override preferred, else agent name)
is truthy, the registered tool key is `agent_` followed by the source
characters snake-cased twice, independently of both random fallbacks. -/
theorem agentToolKey_eq (r1 r2 : String) (ov ag : Option String)
    (h : truthyStr (if truthyStr ov then ov else ag) = true) :
    agentToolKey r1 r2 ov ag =
      ⟨"agent_".data ++
        snakeChars (snakeChars
          (((if truthyStr ov then ov else ag).getD "").data))⟩ := by
  obtain ⟨s, hs, hne⟩ :
      ∃ s, (if truthyStr ov then ov else ag) = some s ∧ s ≠ "" := by
    cases hcase : (if truthyStr ov then ov else ag) with
    | none => rw [hcase] at h; simp [truthyStr] at h
    | some s =>
      rw [hcase] at h
      simp [truthyStr] at h
      exact ⟨s, rfl, h⟩
  have hreg : agentRegistryName r1 ov ag = ⟨snakeChars s.data⟩ := by
    unfold agentRegistryName
    by_cases hov : truthyStr ov = true
    · rw [if_pos hov] at hs
      rw [if_pos hov, hs]
      simp [toSnakeCase, hne]
    · rw [if_neg hov] at hs
      rw [if_neg hov, hs]
      simp [toSnakeCase, hne]
  have hsd : snakeChars s.data ≠ [] := by
    intro hnil
    apply hne
    have hlen : s.data.length = 0 := by
      have := length_replaceFirstSpace (s.data.map toLowerCh)
      rw [show replaceFirstSpace (s.data.map toLowerCh) = snakeChars s.data
        from rfl, hnil] at this
      simpa using this.symm
    cases s with
    | mk data => simp_all
  have hmkne : (⟨snakeChars s.data⟩ : String) ≠ "" := by
    intro hcontra
    apply hsd
    have := congrArg String.data hcontra
    simpa using this
  show "agent_" ++ toSnakeCase r2 (some (agentRegistryName r1 ov ag)) = _
  rw [hreg, hs]
  have hsnake2 : toSnakeCase r2 (some ⟨snakeChars s.data⟩) =
      ⟨snakeChars (snakeChars s.data)⟩ := by
    simp [toSnakeCase, hmkne]
  rw [hsnake2]
  rfl

/-- C3 (amended): for an agent-as-tool registration whose selected source
name (explicit override preferred, else the nested agent's declared name)
is truthy, the generated tool key is deterministic — independent of both
random fallbacks — starts with the `agent_` namespace, and contains no
uppercase ASCII letter (each character is fixed by lowering); but each of
the two `toSnakeCase` passes replaces only the *first* space, so the key
is space-free only when the source name holds at most two spaces. -/
theorem agentToolKey_normalized (r1 r2 r1' r2' : String)
    (ov ag : Option String)
    (h : truthyStr (if truthyStr ov then ov else ag) = true) :
    agentToolKey r1 r2 ov ag = agentToolKey r1' r2' ov ag ∧
      (agentToolKey r1 r2 ov ag).data.take 6 = "agent_".data ∧
      ((agentToolKey r1 r2 ov ag).data.all (fun c => toLowerCh c == c))
        = true ∧
      (spaceCount ((if truthyStr ov then ov else ag).getD "").data ≤ 2 →
        spaceCount (agentToolKey r1 r2 ov ag).data = 0) := by
  have h1 := agentToolKey_eq r1 r2 ov ag h
  have h2 := agentToolKey_eq r1' r2' ov ag h
  have hcount : ∀ l : List Char, spaceCount (snakeChars l) = spaceCount l - 1 := by
    intro l
    rw [show snakeChars l = replaceFirstSpace (l.map toLowerCh) from rfl,
      spaceCount_replaceFirstSpace, spaceCount_map_toLowerCh]
  refine ⟨h1.trans h2.symm, ?_, ?_, ?_⟩
  · rw [h1]
    show ("agent_".data ++ _).take 6 = "agent_".data
    rw [show (6 : Nat) = "agent_".data.length from rfl]
    exact List.take_left _ _
  · rw [h1]
    apply List.all_eq_true.mpr
    intro c hc
    have hc' : c ∈ "agent_".data ++ snakeChars (snakeChars
        (((if truthyStr ov then ov else ag).getD "").data)) := hc
    rcases List.mem_append.mp hc' with hpre | hsnake
    · rw [show "agent_".data = ['a', 'g', 'e', 'n', 't', '_'] from rfl] at hpre
      fin_cases hpre <;> rfl
    · have := snakeChars_lower_fixed _ _ hsnake
      simpa using this
  · intro hle
    rw [h1]
    show spaceCount ("agent_".data ++ _) = 0
    rw [spaceCount_append, hcount, hcount]
    have : spaceCount ("agent_".data) = 0 := by decide
    omega

/-- Counterexample to C3 as stated: with the override name
`"Data Analysis Expert Agent"` (three internal spaces), the generated
tool key keeps an internal space, because each `toSnakeCase` pass
replaces only the first space and only two passes run. -/
theorem agentToolKey_space_counterexample :
    agentToolKey "r1" "r2" (some "Data Analysis Expert Agent") none =
        "agent_data_analysis_expert agent" ∧
      spaceCount (agentToolKey "r1" "r2"
        (some "Data Analysis Expert Agent") none).data ≠ 0 := by
  constructor
  · rfl
  · decide

/-- Witness for (amended) C3 at the override name `"My Agent"` (one
space): the key is identical under different random fallbacks, keeps the
`agent_` namespace, is lowercase, and — the source name holding at most
two spaces — is space-free. -/
theorem agentToolKey_normalized_witness :
    agentToolKey "aaa" "bbb" (some "My Agent") none =
        agentToolKey "ccc" "ddd" (some "My Agent") none ∧
      (agentToolKey "aaa" "bbb" (some "My Agent") none).data.take 6 =
        "agent_".data ∧
      ((agentToolKey "aaa" "bbb" (some "My Agent") none).data.all
        (fun c => toLowerCh c == c)) = true ∧
      spaceCount (agentToolKey "aaa" "bbb" (some "My Agent") none).data = 0 := by
  have h := agentToolKey_normalized "aaa" "bbb" "ccc" "ddd"
    (some "My Agent") none (by decide)
  exact ⟨h.1, h.2.1, h.2.2.1, h.2.2.2 (by decide)⟩

/-- The object-assignment fold building the injected environment equals a
`filterMap` of the present parameters when the declared parameter names
are distinct (as they are for a JavaScript `Record`). -/
theorem injectedEnv_eq_filterMap (env : String → Option String)
    (params : List (String × ParamDecl))
    (hnodup : (params.map (fun kv => kv.1)).Nodup) :
    injectedEnv env params =
      params.filterMap (fun kv =>
        if isSet env kv.1 then some (kv.1, (env kv.1).getD "") else none) := by
  have aux : ∀ (ps : List (String × ParamDecl)) (acc : List (String × String)),
      (ps.map (fun kv => kv.1)).Nodup →
      (∀ k ∈ ps.map (fun kv => kv.1),
        acc.any (fun kv2 => kv2.1 = k) = false) →
      ps.foldl (fun acc kv =>
          if isSet env kv.1 then setEntry acc kv.1 ((env kv.1).getD "")
          else acc) acc =
        acc ++ ps.filterMap (fun kv =>
          if isSet env kv.1 then some (kv.1, (env kv.1).getD "") else none) := by
    intro ps
    induction ps with
    | nil => intro acc _ _; simp
    | cons p rest ih =>
      intro acc hnd hdisj
      obtain ⟨k, dcl⟩ := p
      simp only [List.map_cons, List.nodup_cons] at hnd
      by_cases hset : isSet env k = true
      · have hacc : acc.any (fun kv2 => kv2.1 = k) = false :=
          hdisj k (by simp)
        rw [List.foldl_cons, List.filterMap_cons]
        simp only [hset, if_pos]
        rw [show setEntry acc k ((env k).getD "") =
            acc ++ [(k, (env k).getD "")] from by simp [setEntry, hacc]]
        rw [ih (acc ++ [(k, (env k).getD "")]) hnd.2 ?_]
        · rw [List.append_assoc]
          rfl
        · intro k' hk'
          rw [List.any_append]
          have h1 : acc.any (fun kv2 => kv2.1 = k') = false :=
            hdisj k' (by simp [hk'])
          have h2 : k' ≠ k := by
            intro hcontra
            exact hnd.1 (hcontra ▸ hk')
          simp [h1, Ne.symm h2]
      · rw [List.foldl_cons, List.filterMap_cons, if_neg hset, if_neg hset]
        rw [ih acc hnd.2 (fun k' hk' => hdisj k' (by simp [hk']))]
  have := aux params [] hnodup (by intro k _; rfl)
  simpa [injectedEnv] using this

/-- C8 (amended): for an auto descriptor whose required parameters are
all present, the auto initializer selects the first underlying descriptor
when a list is given (the hypothesis `selectDesc ... = some d` names that
first descriptor) and delegates by the duck-typed discriminator,
defaulting to the subprocess initializer when the `type` property is
absent — but the injected-environment map is spread into the descriptor
only on the subprocess path; the network-stream (sse) path passes the
selected descriptor unchanged.  The injected map itself collects exactly
the declared parameters (required or optional) present in the
environment, with their values, in declaration order. -/
theorem autoServer_delegation (env : String → Option String) (name : String)
    (cfg : MCPAutoConfig) (d : ServerDesc)
    (hmiss : missingEnvVars env cfg.parameters = [])
    (hsel : selectDesc cfg.mcpConfig = some d)
    (hnodup : (cfg.parameters.map (fun kv => kv.1)).Nodup) :
    initializeAutoServer env name cfg =
        (if (if d.hasType then d.typeVal else "stdio") = "stdio" then
          AutoResult.stdioInit name
            { d with env := some (injectedEnv env cfg.parameters) }
        else if (if d.hasType then d.typeVal else "stdio") = "sse" then
          AutoResult.sseInit name d
        else AutoResult.noop) ∧
      injectedEnv env cfg.parameters =
        cfg.parameters.filterMap (fun kv =>
          if isSet env kv.1 then some (kv.1, (env kv.1).getD "") else none) := by
  constructor
  · simp [initializeAutoServer, hmiss, hsel]
  · exact injectedEnv_eq_filterMap env cfg.parameters hnodup

/-- Counterexample to C8 as stated: `cfgSse` declares one optional
parameter `K` which is present in the environment, so the injected map is
`[("K", "v")]`; yet the descriptor delegated to the network-stream
initializer is the unchanged `descSse` (its `env` property still absent),
not the descriptor with the injected environment merged in. -/
theorem autoServer_sse_env_not_merged :
    initializeAutoServer envOnlyK "srv" cfgSse =
        AutoResult.sseInit "srv" descSse ∧
      injectedEnv envOnlyK cfgSse.parameters = [("K", "v")] ∧
      descSse.env = none ∧
      initializeAutoServer envOnlyK "srv" cfgSse ≠
        AutoResult.sseInit "srv"
          { descSse with
            env := some (injectedEnv envOnlyK cfgSse.parameters) } := by
  refine ⟨rfl, rfl, rfl, ?_⟩
  decide

/-- Witness for (amended) C8: `cfgStdioList` has its required parameter
present, a two-element descriptor list whose first entry is the untagged
`descStdio`, and so delegates to the subprocess initializer with the
injected environment `[("K", "v")]` spread into that first descriptor. -/
theorem autoServer_delegation_witness :
    initializeAutoServer envOnlyK "srv" cfgStdioList =
        AutoResult.stdioInit "srv"
          { descStdio with
            env := some (injectedEnv envOnlyK cfgStdioList.parameters) } ∧
      injectedEnv envOnlyK cfgStdioList.parameters =
        cfgStdioList.parameters.filterMap (fun kv =>
          if isSet envOnlyK kv.1 then some (kv.1, (envOnlyK kv.1).getD "")
          else none) := by
  have h := autoServer_delegation envOnlyK "srv" cfgStdioList descStdio
    (by decide) (by decide) (by decide)
  exact ⟨h.1, h.2⟩

/-- Overwriting a key under which some entry already sits, or appending a
fresh one, makes it retrievable. -/
theorem lookupEntry_setEntry_self {α : Type} (m : List (String × α))
    (k : String) (v : α) : lookupEntry (setEntry m k v) k = some v := by
  by_cases hany : m.any (fun kv => kv.1 = k) = true
  · rw [setEntry, if_pos hany]
    induction m with
    | nil => simp at hany
    | cons a as ih =>
      by_cases ha : a.1 = k
      · simp [lookupEntry, List.find?_cons, ha]
      · have h' : as.any (fun kv => kv.1 = k) = true := by
          simpa [List.any_cons, ha] using hany
        have := ih h'
        simpa [lookupEntry, List.find?_cons, ha] using this
  · rw [setEntry, if_neg hany]
    induction m with
    | nil => simp [lookupEntry, List.find?_cons]
    | cons a as ih =>
      have ha : (a.1 = k) = False := by
        by_contra hcontra
        simp [List.any_cons] at hany hcontra
        exact hany.1 hcontra
      have h' : as.any (fun kv => kv.1 = k) = false := by
        have := (Bool.not_eq_true _).mp hany
        simp [List.any_cons] at this
        simpa using this.2
      have := ih (by simp [h'])
      simpa [lookupEntry, List.find?_cons, ha] using this

/-- A head entry whose key differs is skipped by lookup. -/
theorem lookupEntry_cons_ne {α : Type} (a : String × α)
    (m : List (String × α)) (k : String) (h : a.1 ≠ k) :
    lookupEntry (a :: m) k = lookupEntry m k := by
  simp [lookupEntry, List.find?_cons, h]

/-- A head entry whose key matches is returned by lookup. -/
theorem lookupEntry_cons_self {α : Type} (a : String × α)
    (m : List (String × α)) (k : String) (h : a.1 = k) :
    lookupEntry (a :: m) k = some a.2 := by
  simp [lookupEntry, List.find?_cons, h]

/-- Overwriting the value at key `k'` does not change the lookup of a
different key. -/
theorem lookup_map_overwrite_ne {α : Type} (as : List (String × α))
    (k k' : String) (v : α) (h : k' ≠ k) :
    lookupEntry (as.map (fun kv => if kv.1 = k' then (k', v) else kv)) k =
      lookupEntry as k := by
  induction as with
  | nil => rfl
  | cons a rest ih =>
    rw [List.map_cons]
    by_cases ha : a.1 = k'
    · rw [if_pos ha]
      rw [lookupEntry_cons_ne (k', v) _ k h]
      rw [lookupEntry_cons_ne a _ k (by rw [ha]; exact h)]
      exact ih
    · rw [if_neg ha]
      by_cases hak : a.1 = k
      · rw [lookupEntry_cons_self a _ k hak, lookupEntry_cons_self a _ k hak]
      · rw [lookupEntry_cons_ne a _ k hak, lookupEntry_cons_ne a _ k hak]
        exact ih

/-- Appending a fresh entry of a different key does not change a
lookup. -/
theorem lookup_append_single_ne {α : Type} (m : List (String × α))
    (k k' : String) (v : α) (h : k' ≠ k) :
    lookupEntry (m ++ [(k', v)]) k = lookupEntry m k := by
  induction m with
  | nil => simp [lookupEntry, List.find?_cons, h]
  | cons a rest ih =>
    rw [List.cons_append]
    by_cases hak : a.1 = k
    · rw [lookupEntry_cons_self a _ k hak, lookupEntry_cons_self a _ k hak]
    · rw [lookupEntry_cons_ne a _ k hak, lookupEntry_cons_ne a _ k hak]
      exact ih

/-- Setting a different key leaves a lookup unchanged. -/
theorem lookupEntry_setEntry_ne {α : Type} (m : List (String × α))
    (k k' : String) (v : α) (h : k' ≠ k) :
    lookupEntry (setEntry m k' v) k = lookupEntry m k := by
  by_cases hany : m.any (fun kv => kv.1 = k') = true
  · rw [setEntry, if_pos hany]
    exact lookup_map_overwrite_ne m k k' v h
  · rw [setEntry, if_neg hany]
    exact lookup_append_single_ne m k k' v h

/-- A fold of `setEntry`s over keys not containing `k` leaves the lookup
of `k` unchanged. -/
theorem lookupEntry_foldl_untouched (env : Env)
    (rest : List (String × ServerDesc)) :
    ∀ (m : List (String × Client)) (k : String),
      k ∉ rest.map (fun p => p.1) →
      lookupEntry (rest.foldl
        (fun c q => setEntry c q.1 (env.connect q.1 q.2)) m) k =
        lookupEntry m k := by
  induction rest with
  | nil => intro m k _; rfl
  | cons q rs ih =>
    intro m k hk
    rw [List.foldl_cons]
    have hne : q.1 ≠ k := by
      intro hcontra
      exact hk (by simp [hcontra.symm])
    rw [ih _ k (fun hmem => hk (by simp [hmem]))]
    exact lookupEntry_setEntry_ne m k q.1 _ hne

/-- After folding connections for a list of distinctly named servers over
any prior registry, each server's name retrieves its fresh client. -/
theorem lookupEntry_foldl_connect (env : Env) :
    ∀ (servers : List (String × ServerDesc))
      (init : List (String × Client)),
      (servers.map (fun p => p.1)).Nodup →
      ∀ p ∈ servers,
        lookupEntry (servers.foldl
          (fun c q => setEntry c q.1 (env.connect q.1 q.2)) init) p.1 =
          some (env.connect p.1 p.2) := by
  intro servers
  induction servers with
  | nil => intro init _ p hp; cases hp
  | cons q rest ih =>
    intro init hnd p hp
    simp only [List.map_cons, List.nodup_cons] at hnd
    rw [List.foldl_cons]
    rcases List.mem_cons.mp hp with rfl | hmem
    · rw [lookupEntry_foldl_untouched env rest _ p.1 hnd.1]
      exact lookupEntry_setEntry_self init p.1 _
    · exact ih _ hnd.2 p hmem

/-- Running the `mcpServers` fan-out over untagged (stdio) descriptors
opens one connection per entry, in order, and folds the resulting clients
into the registry. -/
theorem initServers_stdio (env : Env) :
    ∀ (servers : List (String × ServerDesc)) (st : AgentState),
      (∀ p ∈ servers, p.2.hasType = false) →
      initServers env st
        (servers.map (fun p => (p.1, ServerEntry.plain p.2))) =
        .ok ({ st with
            clients :=
              servers.foldl
                (fun c q => setEntry c q.1 (env.connect q.1 q.2))
                st.clients },
          servers.map (fun p => Evt.connect p.1 p.2)) := by
  intro servers
  induction servers with
  | nil => intro st _; rfl
  | cons p rest ih =>
    intro st hplain
    obtain ⟨n, d⟩ := p
    have hd : d.hasType = false := hplain (n, d) (by simp)
    have hone : initOneServer env st n (ServerEntry.plain d) =
        .ok ({ st with clients := setEntry st.clients n (env.connect n d) },
          [Evt.connect n d]) := by
      simp [initOneServer, hd, initializeSdtioServerSt]
    have hrest := ih { st with clients := setEntry st.clients n (env.connect n d) }
      (fun q hq => hplain q (by simp [hq]))
    rw [List.map_cons, initServers, hone]
    simp [hrest, List.foldl_cons]

/-- `initialize` on an agent whose configuration is one `mcpServers` map
of untagged (stdio) descriptors: every server is connected (in entry
order), the client registry is updated by object assignment, the
discovered tools of every registered client are merged, and the
`initialized` flag is set — all without ever reading the flag's previous
value.  -/
theorem initAgent_mcp_stdio (env : Env) (st : AgentState)
    (servers : List (String × ServerDesc))
    (hcfg : st.config = [WorkflowConfig.mcp
      (servers.map (fun p => (p.1, ServerEntry.plain p.2)))])
    (hplain : ∀ p ∈ servers, p.2.hasType = false) :
    initAgent env st =
      .ok ({ st with
          clients :=
            servers.foldl
              (fun c q => setEntry c q.1 (env.connect q.1 q.2)) st.clients
          tools :=
            (servers.foldl
              (fun c q => setEntry c q.1 (env.connect q.1 q.2))
              st.clients).foldl
              (fun (t : List (String × ToolEntry)) (kv : String × Client) =>
                mergeRecord t (env.clientTools kv.2)) st.tools
          initialized := true },
        servers.map (fun p => Evt.connect p.1 p.2)) := by
  have hserv := initServers_stdio env servers st hplain
  simp only [initAgent, hcfg, routeAll, initializeConfigRouterSt, hserv]
  simp

/-- Shape of every successful `generateResponse` run: the returned result
is the post-processed model response over the request built from the
returned state, and the model-invocation event comes after any lazy
initialization events. -/
theorem generateResponse_shape (env : Env) (st : AgentState) (args : GenArgs)
    (st' : AgentState) (res : RawResult) (evts : List Evt)
    (h : generateResponse env st args = .ok (st', res, evts)) :
    res = postProcess (env.llm (buildReq st' args)) := by
  rw [generateResponse] at h
  by_cases hinit : st.initialized = true
  · rw [if_pos hinit] at h
    simp only [Except.ok.injEq, Prod.mk.injEq] at h
    obtain ⟨h1, h2, _⟩ := h
    subst h1
    exact h2.symm
  · rw [if_neg hinit] at h
    cases hcase : initAgent env st with
    | error e => rw [hcase] at h; exact Except.noConfusion h
    | ok p =>
      obtain ⟨st1, initEvts⟩ := p
      rw [hcase] at h
      simp only [Except.ok.injEq, Prod.mk.injEq] at h
      obtain ⟨h1, h2, _⟩ := h
      subst h1
      exact h2.symm

/-- C6: a `generateResponse` call on an uninitialized agent runs exactly
one initialization — the routing/merging pass `initAgent`, whose events
`evts` appear once, before the single model-invocation event — and
returns the state that initialization produced, with the `initialized`
flag now set; a second call on that state performs no initialization (its
event trace is just the model invocation and the state is unchanged). -/
theorem generateResponse_initializes_once (env : Env) (st : AgentState)
    (args : GenArgs) (st₁ : AgentState) (evts : List Evt)
    (h0 : st.initialized = false)
    (h1 : initAgent env st = .ok (st₁, evts)) :
    generateResponse env st args =
        .ok (st₁, postProcess (env.llm (buildReq st₁ args)),
          evts ++ [Evt.llmCall (buildReq st₁ args)]) ∧
      st₁.initialized = true ∧
      generateResponse env st₁ args =
        .ok (st₁, postProcess (env.llm (buildReq st₁ args)),
          [Evt.llmCall (buildReq st₁ args)]) := by
  have hflag : st₁.initialized = true := by
    rw [initAgent] at h1
    cases hcase : routeAll env st st.config with
    | error e => rw [hcase] at h1; exact Except.noConfusion h1
    | ok p =>
      obtain ⟨s, e⟩ := p
      rw [hcase] at h1
      simp only [Except.ok.injEq, Prod.mk.injEq] at h1
      rw [← h1.1]
  refine ⟨?_, hflag, ?_⟩
  · rw [generateResponse, if_neg (by simp [h0]), h1]
  · rw [generateResponse, if_pos hflag]
    simp

/-- Witness for C6: `stFresh` is uninitialized with one configured stdio
server; the first `generateResponse` call connects it and then invokes
the model, the produced state is initialized, and a second call only
invokes the model. -/
theorem generateResponse_initializes_once_witness :
    generateResponse env0 stFresh args0 =
        .ok (stFreshAfter,
          postProcess (env0.llm (buildReq stFreshAfter args0)),
          [Evt.connect "s" descStdio] ++
            [Evt.llmCall (buildReq stFreshAfter args0)]) ∧
      stFreshAfter.initialized = true ∧
      generateResponse env0 stFreshAfter args0 =
        .ok (stFreshAfter,
          postProcess (env0.llm (buildReq stFreshAfter args0)),
          [Evt.llmCall (buildReq stFreshAfter args0)]) :=
  generateResponse_initializes_once env0 stFresh args0 stFreshAfter
    [Evt.connect "s" descStdio] rfl (by rfl)

/-- C7: every successful `generateResponse` run post-processes the raw
model response as follows: when the text is empty and the finish reason
is `"tool-calls"`, the returned text is the fixed explanatory sentence
while the finish reason (and everything else) is preserved — not turned
into an error; in every other case the returned result is the raw
response itself, text included. -/
theorem generateResponse_empty_text_substitution (env : Env)
    (st : AgentState) (args : GenArgs) (st' : AgentState) (res : RawResult)
    (evts : List Evt)
    (h : generateResponse env st args = .ok (st', res, evts)) :
    ((env.llm (buildReq st' args)).text = "" ∧
        (env.llm (buildReq st' args)).finishReason = "tool-calls" →
      res.text = emptyToolCallsText ∧
        res.finishReason = (env.llm (buildReq st' args)).finishReason ∧
        res.usage = (env.llm (buildReq st' args)).usage) ∧
      (¬((env.llm (buildReq st' args)).text = "" ∧
          (env.llm (buildReq st' args)).finishReason = "tool-calls") →
        res = env.llm (buildReq st' args)) := by
  have hres := generateResponse_shape env st args st' res evts h
  constructor
  · intro hcond
    rw [hres, postProcess, if_pos hcond]
    exact ⟨rfl, rfl, rfl⟩
  · intro hcond
    rw [hres, postProcess, if_neg hcond]

/-- Witness for C7 at an oracle whose model call returns empty text with
finish reason `"tool-calls"`: the returned text is the fixed sentence and
the finish reason is preserved. -/
theorem generateResponse_empty_text_substitution_witness :
    (envToolCalls.llm (buildReq stOpen args0)).text = "" ∧
      (envToolCalls.llm (buildReq stOpen args0)).finishReason = "tool-calls" ∧
      (postProcess (envToolCalls.llm (buildReq stOpen args0))).text =
        emptyToolCallsText ∧
      (postProcess (envToolCalls.llm (buildReq stOpen args0))).finishReason =
        "tool-calls" := by
  have h := generateResponse_empty_text_substitution envToolCalls stOpen args0
    stOpen (postProcess (envToolCalls.llm (buildReq stOpen args0)))
    [Evt.llmCall (buildReq stOpen args0)] (by rfl)
  have h2 := h.1 ⟨rfl, rfl⟩
  exact ⟨rfl, rfl, h2.1, h2.2.1⟩

/-- C2 (amended): after `close()` on an initialized agent, a close was
issued for every owned client and a cascading close for every nested
agent (in registry order), the client and nested-agent registries are
empty, and the `initialized` flag is still set — but the *tool* registry
is untouched, so a subsequent `generateResponse` call, while indeed not
reinitializing (state unchanged, no connection events), runs with the
previously merged tools still present (filtered and merged with the
caller's ad hoc tools), not with no tools. -/
theorem close_clears_registries (st : AgentState) (env : Env)
    (args : GenArgs) (h : st.initialized = true) :
    (close st).2 =
        st.clients.map (fun kv => Evt.closeClient kv.1 kv.2) ++
          st.agents.map (fun kv => Evt.closeAgent kv.1 kv.2) ∧
      (close st).1.clients = [] ∧
      (close st).1.agents = [] ∧
      (close st).1.initialized = true ∧
      (close st).1.tools = st.tools ∧
      generateResponse env (close st).1 args =
        .ok ((close st).1,
          postProcess (env.llm (buildReq (close st).1 args)),
          [Evt.llmCall (buildReq (close st).1 args)]) ∧
      (buildReq (close st).1 args).tools =
        mergeRecord (filterTools st.tools args.filterMCPTools) args.tools := by
  refine ⟨rfl, rfl, rfl, h, rfl, ?_, rfl⟩
  rw [generateResponse, if_pos (show (close st).1.initialized = true from h)]
  simp

/-- Witness for (amended) C2 at the initialized state `stOpen` (one
client, one nested agent, one discovered tool). -/
theorem close_clears_registries_witness :
    (close stOpen).2 =
        stOpen.clients.map (fun kv => Evt.closeClient kv.1 kv.2) ++
          stOpen.agents.map (fun kv => Evt.closeAgent kv.1 kv.2) ∧
      (close stOpen).1.clients = [] ∧
      (close stOpen).1.agents = [] ∧
      (close stOpen).1.initialized = true ∧
      (close stOpen).1.tools = stOpen.tools ∧
      generateResponse env0 (close stOpen).1 args0 =
        .ok ((close stOpen).1,
          postProcess (env0.llm (buildReq (close stOpen).1 args0)),
          [Evt.llmCall (buildReq (close stOpen).1 args0)]) ∧
      (buildReq (close stOpen).1 args0).tools =
        mergeRecord (filterTools stOpen.tools args0.filterMCPTools)
          args0.tools :=
  close_clears_registries stOpen env0 args0 rfl

/-- Counterexample to C2 as stated ("runs with no tools"): after closing
`stOpen`, the tool registry still holds the previously merged tool `t1`,
the request of the next `generateResponse` call carries it, and that call
is issued with a nonempty tool mapping. -/
theorem close_keeps_tools_counterexample :
    (close stOpen).1.tools = [("t1", toolA)] ∧
      (buildReq (close stOpen).1 args0).tools = [("t1", toolA)] ∧
      generateResponse env0 (close stOpen).1 args0 =
        .ok ((close stOpen).1,
          { text := "hello", finishReason := "stop", usage := ⟨1, 1, 2⟩ },
          [Evt.llmCall (buildReq (close stOpen).1 args0)]) ∧
      ([("t1", toolA)] : List (String × ToolEntry)) ≠ [] := by
  refine ⟨rfl, rfl, ?_, by decide⟩
  rfl

/-- C10: an *explicit* `initialize()` call routes the whole configuration
again regardless of the `initialized` flag: on an agent already flagged
initialized (`hflag`) with a map of distinctly named stdio servers, a
successful run emits a fresh connection event for every configured server
and leaves the registry entry of each server name holding the newly
opened client — overwriting whatever client the registry previously held
under that name; only the lazy path inside `generateResponse` consults
the flag, so a `generateResponse` call on the same state performs no
initialization at all. -/
theorem initAgent_unguarded (env : Env) (st st' : AgentState)
    (evts : List Evt) (servers : List (String × ServerDesc)) (args : GenArgs)
    (hcfg : st.config = [WorkflowConfig.mcp
      (servers.map (fun p => (p.1, ServerEntry.plain p.2)))])
    (hplain : ∀ p ∈ servers, p.2.hasType = false)
    (hflag : st.initialized = true)
    (hnodup : (servers.map (fun p => p.1)).Nodup)
    (hrun : initAgent env st = .ok (st', evts)) :
    evts = servers.map (fun p => Evt.connect p.1 p.2) ∧
      servers.map (fun p => lookupEntry st'.clients p.1) =
        servers.map (fun p => some (env.connect p.1 p.2)) ∧
      st'.initialized = true ∧
      generateResponse env st args =
        .ok (st, postProcess (env.llm (buildReq st args)),
          [Evt.llmCall (buildReq st args)]) := by
  have hcomp := initAgent_mcp_stdio env st servers hcfg hplain
  rw [hcomp] at hrun
  simp only [Except.ok.injEq, Prod.mk.injEq] at hrun
  obtain ⟨hst, hev⟩ := hrun
  subst hst
  refine ⟨hev.symm, ?_, rfl, ?_⟩
  · exact List.map_congr_left
      (fun p hp => lookupEntry_foldl_connect env servers st.clients hnodup p hp)
  · rw [generateResponse, if_pos hflag]
    simp

/-- Witness for C10: `stTwo` is already initialized and holds a stale
client `99` under `s1`; an explicit re-initialization connects both
configured servers again and overwrites the `s1` entry with the fresh
client `0`, while `generateResponse` on the same state opens nothing. -/
theorem initAgent_unguarded_witness :
    [Evt.connect "s1" descStdio, Evt.connect "s2" descStdio2] =
        serversW.map (fun p => Evt.connect p.1 p.2) ∧
      serversW.map (fun p =>
          lookupEntry ({ stTwo with clients := [("s1", 0), ("s2", 0)] }
            : AgentState).clients p.1) =
        serversW.map (fun p => some (env0.connect p.1 p.2)) ∧
      ({ stTwo with clients := [("s1", 0), ("s2", 0)] }
        : AgentState).initialized = true ∧
      generateResponse env0 stTwo args0 =
        .ok (stTwo, postProcess (env0.llm (buildReq stTwo args0)),
          [Evt.llmCall (buildReq stTwo args0)]) :=
  initAgent_unguarded env0 stTwo
    { stTwo with clients := [("s1", 0), ("s2", 0)] }
    [Evt.connect "s1" descStdio, Evt.connect "s2" descStdio2] serversW args0
    rfl (by decide) rfl (by decide) (by rfl)

end McpAiAgent
